import Mathlib

/-!
Verification of the deployment-manifest editor (`vc-deploy-modules`).

The development shallowly embeds the core logic of the repository:
the manifest data model (`ConfigurationData`), the view-model projection
(`projectModules` in `ModuleList.vue`), edit reprojection
(`handleModuleUpdate` in `App.vue`), the move engine (`moveModule`),
the canonical serializer (`generateJson`), the validators, the tag
processing, and the diff reporter (`generateDiffDescription`).

JavaScript strings are modelled as Lean `String`s; `split('_')` is
modelled with an explicit character-level splitter with JS semantics;
`localeCompare` and default `Array.prototype.sort` string comparison are
modelled as code-unit (code-point) lexicographic order; `Array.prototype.sort`
is modelled as a stable sort (`List.insertionSort`).
-/

namespace VcDeploy

/-! ## Character / string utilities modelling JS primitives -/

/-- JS whitespace characters recognised by our model of `String.prototype.trim`. -/
def isWsCh (c : Char) : Bool :=
  c = ' ' || c = '\t' || c = '\n' || c = '\r'

/-- Model of `String.prototype.trim` at the character level. -/
def trimChars (cs : List Char) : List Char :=
  ((cs.dropWhile isWsCh).reverse.dropWhile isWsCh).reverse

/-- Model of `String.prototype.trim`. -/
def jsTrim (s : String) : String :=
  ⟨trimChars s.data⟩

/-- Model of JS `String.prototype.split` with a one-character separator
(`splitChars sep cs`): the result is always non-empty, and empty fields are kept. -/
def splitChars (sep : Char) : List Char → List (List Char)
  | [] => [[]]
  | c :: cs =>
    let r := splitChars sep cs
    if c = sep then [] :: r
    else (c :: r.headD []) :: r.tail

/-- First field of the underscore split of `b` (always defined, as in JS). -/
def bIdOf (b : String) : String :=
  ⟨(splitChars '_' b.data).headD []⟩

/-- Second field of the underscore split of `b`, or the empty string when absent. -/
def bValOf (b : String) : String :=
  ⟨(splitChars '_' b.data).getD 1 []⟩

/-- Boolean prefix test on character lists, modelling `String.prototype.startsWith`. -/
def prefB : List Char → List Char → Bool
  | [], _ => true
  | _ :: _, [] => false
  | c :: cs, d :: ds => c = d && prefB cs ds

/-- Code-unit lexicographic `≤` on character lists: the model of JS string
comparison (`localeCompare` and default `sort()` ordering). -/
def lexLe : List Char → List Char → Bool
  | [], _ => true
  | _ :: _, [] => false
  | c :: cs, d :: ds => if c = d then lexLe cs ds else decide (c < d)

/-- Code-unit lexicographic `≤` on strings. -/
def strLe (a b : String) : Bool :=
  lexLe a.data b.data

/-- Model of `Array.prototype.findIndex` (`none` for `-1`). -/
def findIdxP (p : α → Prop) [DecidablePred p] : List α → Option Nat
  | [] => none
  | x :: xs => if p x then some 0 else (findIdxP p xs).map (· + 1)

/-- Replace the element at an index by the image under `f` (in-place update). -/
def updateAt : Nat → (α → α) → List α → List α
  | _, _, [] => []
  | 0, f, x :: xs => f x :: xs
  | n + 1, f, x :: xs => x :: updateAt n f xs

/-! ## Data model (`src/types.ts`) -/

/-- A module record (`ModuleBase` in `types.ts`): all fields optional. -/
structure ModuleBase where
  Id : Option String
  Version : Option String
  BlobName : Option String
deriving DecidableEq, Repr

/-- A source declaration.  The TS type is a tagged union
(`AzureBlobSource`/`GithubReleasesSource`); we use one record with optional
fields, since the code accesses fields dynamically. -/
structure Source where
  Name : String
  Container : Option String
  ServiceUri : Option String
  ModuleSources : Option (List String)
  Modules : List ModuleBase
deriving DecidableEq, Repr

/-- The manifest (`ConfigurationData` in `types.ts`). -/
structure ConfigurationData where
  ManifestVersion : String
  PlatformVersion : String
  PlatformImage : String
  PlatformImageTag : String
  PlatformAssetUrl : String
  ModuleSources : List String
  Sources : List Source
deriving DecidableEq, Repr

/-- A view record (`ModuleViewModel` in `ModuleList.vue`), without the
UI-only `tags`/`isLoadingTags` fields. -/
structure ViewRecord where
  id : String
  value : String
  sourceType : String
deriving DecidableEq, Repr

/-! ## View-model projection (`updateModules` in `ModuleList.vue`) -/

/-- Projection of one stored module record to a view record, given the owning
source's name.  Mirrors the body of the `forEach` in `updateModules`:
records whose identifier cannot be determined (falsy) are skipped. -/
def projectModule (name : String) (m : ModuleBase) : Option ViewRecord :=
  if name = "GithubReleases" then
    match m.Id with
    | none => none
    | some i => if i = "" then none else some ⟨i, m.Version.getD "", name⟩
  else
    match m.BlobName with
    | none => none
    | some b => if bIdOf b = "" then none else some ⟨bIdOf b, bValOf b, name⟩

/-- All view records of one source declaration. -/
def projectSource (s : Source) : List ViewRecord :=
  s.Modules.filterMap (projectModule s.Name)

/-- Projection `updateModules`: the flat list of view records of a manifest. -/
def projectModules (cfg : ConfigurationData) : List ViewRecord :=
  cfg.Sources.flatMap projectSource

/-! ## Edit reprojection (`handleModuleUpdate` in `App.vue`) -/

/-- The predicate used by `findIndex` to locate a module record:
`type === 'GithubReleases' ? m.Id === moduleId : m.BlobName?.startsWith(moduleId)`. -/
def moduleMatches (type id : String) (m : ModuleBase) : Bool :=
  if type = "GithubReleases" then decide (m.Id = some id)
  else
    match m.BlobName with
    | some b => prefB id.data b.data
    | none => false

/-- The fresh record pushed when no existing record matches. -/
def newModule (id type value : String) : ModuleBase :=
  if type = "GithubReleases" then ⟨some id, some value, none⟩
  else ⟨none, none, some (if value = "" then id ++ "_" else value)⟩

/-- In-place value update of an existing record. -/
def setModuleValue (id type value : String) (m : ModuleBase) : ModuleBase :=
  if type = "GithubReleases" then { m with Version := some value }
  else { m with BlobName := some (if value = "" then id ++ "_" else value) }

/-- The non-delete branch of `handleModuleUpdate`: update the matching record
in place, or append a fresh one if none matches. -/
def applyEdit (p : ModuleBase → Bool) (f : ModuleBase → ModuleBase)
    (new : ModuleBase) (l : List ModuleBase) : List ModuleBase :=
  match findIdxP (fun m => p m = true) l with
  | none => l ++ [new]
  | some i => updateAt i f l

/-- The per-source body of `handleModuleUpdate`.  On the delete sentinel it
splices at the found index; `splice(-1, 1)` (no match) removes the last
element. -/
def updateSourceModules (moduleId type value : String) (s : Source) : Source :=
  if value = "__DELETE__" then
    { s with
      Modules :=
        match findIdxP (fun m => moduleMatches type moduleId m = true) s.Modules with
        | some i => s.Modules.eraseIdx i
        | none => s.Modules.dropLast }
  else
    { s with
      Modules :=
        applyEdit (moduleMatches type moduleId) (setModuleValue moduleId type value)
          (newModule moduleId type value) s.Modules }

/-- Embedding of `handleModuleUpdate` (on a deep copy; pure here): locate the source by
kind name, return the manifest unchanged when absent. -/
def handleModuleUpdate (cfg : ConfigurationData) (moduleId type value : String) :
    ConfigurationData :=
  match findIdxP (fun s => s.Name = type) cfg.Sources with
  | none => cfg
  | some i =>
    { cfg with Sources := updateAt i (updateSourceModules moduleId type value) cfg.Sources }

/-- Embedding of `handleInputChange`: the full stored value emitted for an edited display
value (trim; for blob storage, prepend `id ++ "_"`). -/
def fullValueFor (id type value : String) : String :=
  let t := jsTrim value
  if type = "GithubReleases" then t else id ++ "_" ++ t

/-- One round-trip edit: reproject a view record's own display value into the
manifest (the `handleInputChange` → `handleModuleUpdate` path). -/
def reprojectEdit (cfg : ConfigurationData) (r : ViewRecord) : ConfigurationData :=
  handleModuleUpdate cfg r.id r.sourceType (fullValueFor r.id r.sourceType r.value)

/-- Project a manifest and reproject every view record's own current value. -/
def roundTrip (cfg : ConfigurationData) : ConfigurationData :=
  (projectModules cfg).foldl reprojectEdit cfg

/-- Effect of `moveModule` on the manifest: delete under the old kind via the
sentinel, then insert-or-update under the new kind with an empty value. -/
def applyMove (cfg : ConfigurationData) (id fromType toType : String) :
    ConfigurationData :=
  handleModuleUpdate (handleModuleUpdate cfg id fromType "__DELETE__") id toType ""

/-! ## Validation engine (`ModuleList.vue`, `PlatformConfig.vue`) -/

/-- Digit character (`\d`). -/
def isDigitCh (c : Char) : Bool := '0' ≤ c && c ≤ '9'

/-- JS word character (`\w` = `[A-Za-z0-9_]`). -/
def isWordCh (c : Char) : Bool := c.isAlpha || isDigitCh c || c = '_'

/-- Character class `[\w.-]`. -/
def isWordDotDash (c : Char) : Bool := isWordCh c || c = '.' || c = '-'

/-- Consume `\d+\.` from the front of the input; return the remainder after
the dot, or `none` when the input does not start with one-or-more digits and a
dot. -/
def matchDigitsDot (cs : List Char) : Option (List Char) :=
  match cs.takeWhile isDigitCh, cs.dropWhile isDigitCh with
  | _ :: _, '.' :: r => some r
  | _, _ => none

/-- Matcher for `^\d+\.\d+\.\d+$` on a character list. -/
def versionCore (cs : List Char) : Bool :=
  match matchDigitsDot cs with
  | some r2 =>
    match matchDigitsDot r2 with
    | some r4 => !r4.isEmpty && r4.all isDigitCh
    | none => false
  | none => false

/-- Predicate `isValidVersion` / `isSemanticVersion`: trimmed input matching
`^\d+\.\d+\.\d+$`. -/
def isValidVersion (s : String) : Bool :=
  versionCore (trimChars s.data)

/-- The tail of the artifact regex after the third digit group:
either exactly `.zip`, or `-` followed by `[\w.-]+` and `.zip`. -/
def blobTailCore (cs : List Char) : Bool :=
  match cs with
  | '.' :: 'z' :: 'i' :: 'p' :: [] => true
  | '-' :: r =>
    decide (5 ≤ r.length) &&
      decide (r.drop (r.length - 4) = ['.', 'z', 'i', 'p']) &&
      (r.take (r.length - 4)).all isWordDotDash
  | _ => false

/-- Matcher for `^\d+\.\d+\.\d+(-[\w.-]+)?\.zip$` on a character list. -/
def blobCore (cs : List Char) : Bool :=
  match matchDigitsDot cs with
  | some r2 =>
    match matchDigitsDot r2 with
    | some r4 =>
      match r4.takeWhile isDigitCh, r4.dropWhile isDigitCh with
      | _ :: _, r5 => blobTailCore r5
      | _, _ => false
    | none => false
  | none => false

/-- Predicate `isValidBlobName` / `isArtifactFilename`: trimmed input matching
`^\d+\.\d+\.\d+(-[\w.-]+)?\.zip$`. -/
def isValidBlobName (s : String) : Bool :=
  blobCore (trimChars s.data)

/-- The language of the regex `^\d+\.\d+\.\d+(-[\w.-]+)?\.zip$`, as an
explicit decomposition (an independent formulation of the artifact-filename
format, to be proved equivalent to the matcher `isValidBlobName` embeds). -/
def ArtifactRegexMatch (cs : List Char) : Prop :=
  ∃ a b c tail,
    cs = a ++ '.' :: (b ++ '.' :: (c ++ tail)) ∧
    a ≠ [] ∧ a.all isDigitCh = true ∧ b ≠ [] ∧ b.all isDigitCh = true ∧
    c ≠ [] ∧ c.all isDigitCh = true ∧
    (tail = ['.', 'z', 'i', 'p'] ∨
      ∃ t, tail = '-' :: (t ++ ['.', 'z', 'i', 'p']) ∧ t ≠ [] ∧
        t.all isWordDotDash = true)

/-- The display value of a blob composite as the *spec's words* describe it in
claim C4: the substring strictly after the first `_` (keeping any later `_`
characters), or `""` when the composite contains no `_`. -/
def afterFirstUnderscoreSpec (b : String) : String :=
  if '_' ∈ b.data then ⟨(b.data.dropWhile (fun c => c != '_')).tail⟩ else ""

/-! ## Tag processing (`fetchGitHubTags` in `ModuleList.vue`) -/

/-- Tag normalization, stripping one leading `v` if present. -/
def stripLeadingV (s : String) : String :=
  match s.data with
  | 'v' :: rest => ⟨rest⟩
  | _ => s

/-- Descending string order used by `sort((a, b) => b.localeCompare(a))`. -/
def strDescLe (a b : String) : Prop := strLe b a = true

instance : DecidableRel strDescLe := fun _ _ => instDecidableEqBool _ _

/-- The processed tag list: strip a leading `v`, keep semantic versions,
sort descending by string comparison. -/
def processTags (tags : List String) : List String :=
  List.insertionSort strDescLe ((tags.map stripLeadingV).filter (fun t => isValidVersion t))

/-! ## Canonical serializer (`generateJson` in `App.vue`) -/

/-- The `getModuleId` helper of `generateJson` (and of the diff reporter):
`module.Id` when truthy, otherwise `BlobName?.split('_')[0] || ''`. -/
def getModuleId (m : ModuleBase) : String :=
  match m.Id with
  | some i => if i = "" then (match m.BlobName with | some b => bIdOf b | none => "") else i
  | none => match m.BlobName with | some b => bIdOf b | none => ""

/-- Order on sources used by `Sources.sort((a, b) => a.Name.localeCompare(b.Name))`. -/
def srcLe (a b : Source) : Prop := strLe a.Name b.Name = true

instance : DecidableRel srcLe := fun _ _ => instDecidableEqBool _ _

/-- Order on modules used by `sort((a, b) => getModuleId(a).localeCompare(getModuleId(b)))`. -/
def modLe (a b : ModuleBase) : Prop := strLe (getModuleId a) (getModuleId b) = true

instance : DecidableRel modLe := fun _ _ => instDecidableEqBool _ _

/-- Ascending string order used by plain `.sort()` on string arrays. -/
def strLeP (a b : String) : Prop := strLe a b = true

instance : DecidableRel strLeP := fun _ _ => instDecidableEqBool _ _

/-- The per-source rebuild of `generateJson` when sorting is enabled:
keep `Name`; for `AzureBlob` keep `Container`/`ServiceUri`; otherwise keep a
sorted `ModuleSources` (defaulting to `[]`); sort the modules by identifier. -/
def rebuildSource (s : Source) : Source :=
  let sortedMods := List.insertionSort modLe s.Modules
  if s.Name = "AzureBlob" then
    { Name := s.Name, Container := s.Container, ServiceUri := s.ServiceUri,
      ModuleSources := none, Modules := sortedMods }
  else
    { Name := s.Name, Container := none, ServiceUri := none,
      ModuleSources := some (List.insertionSort strLeP (s.ModuleSources.getD [])),
      Modules := sortedMods }

/-- The sorting pass of `generateJson` (`shouldSortModules` branch). -/
def sortConfig (cfg : ConfigurationData) : ConfigurationData :=
  { cfg with
    Sources := (List.insertionSort srcLe cfg.Sources).map rebuildSource,
    ModuleSources := List.insertionSort strLeP cfg.ModuleSources }

/-- JSON values, with object key order preserved. -/
inductive Json where
  | str : String → Json
  | arr : List Json → Json
  | obj : List (String × Json) → Json

/-- A stored module record as a JSON object: present fields only
(`JSON.stringify` omits `undefined`). -/
def moduleToJson (m : ModuleBase) : Json :=
  Json.obj
    ((match m.Id with | some i => [("Id", Json.str i)] | none => []) ++
     (match m.Version with | some v => [("Version", Json.str v)] | none => []) ++
     (match m.BlobName with | some b => [("BlobName", Json.str b)] | none => []))

/-- A source declaration as a JSON object: present fields only. -/
def sourceToJson (s : Source) : Json :=
  Json.obj
    ([("Name", Json.str s.Name)] ++
     (match s.Container with | some c => [("Container", Json.str c)] | none => []) ++
     (match s.ServiceUri with | some u => [("ServiceUri", Json.str u)] | none => []) ++
     (match s.ModuleSources with
      | some l => [("ModuleSources", Json.arr (l.map Json.str))]
      | none => []) ++
     [("Modules", Json.arr (s.Modules.map moduleToJson))])

/-- The final object literal of `generateJson`, with its fixed top-level key
order. -/
def configToJsonAst (c : ConfigurationData) : Json :=
  Json.obj
    [("ManifestVersion", Json.str c.ManifestVersion),
     ("PlatformVersion", Json.str c.PlatformVersion),
     ("PlatformImage", Json.str c.PlatformImage),
     ("PlatformImageTag", Json.str c.PlatformImageTag),
     ("PlatformAssetUrl", Json.str c.PlatformAssetUrl),
     ("ModuleSources", Json.arr (c.ModuleSources.map Json.str)),
     ("Sources", Json.arr (c.Sources.map sourceToJson))]

/-- Embedding of `generateJson` as a JSON value: sort when enabled, then emit with the
fixed top-level key order. -/
def generateJsonAst (cfg : ConfigurationData) (sortEnabled : Bool) : Json :=
  configToJsonAst (if sortEnabled then sortConfig cfg else cfg)

/-- Top-level key list of a JSON value. -/
def jsonTopKeys : Json → List String
  | .obj kvs => kvs.map Prod.fst
  | _ => []

/-- Minimal JSON string escaping (sufficient for `JSON.stringify` on the
strings at hand). -/
def escCh (c : Char) : List Char :=
  if c = '"' then ['\\', '"']
  else if c = '\\' then ['\\', '\\']
  else if c = '\n' then ['\\', 'n']
  else if c = '\r' then ['\\', 'r']
  else if c = '\t' then ['\\', 't']
  else [c]

/-- Render a JSON string literal. -/
def renderStr (s : String) : String :=
  "\"" ++ ⟨s.data.flatMap escCh⟩ ++ "\""

/-- Indentation of `JSON.stringify` with two spaces per nesting level. -/
def indentStr (n : Nat) : String :=
  ⟨List.replicate (2 * n) ' '⟩

/-- Pretty-print a JSON value with two-space indentation, modelling
`JSON.stringify(value, null, 2)`. -/
def renderJson (d : Nat) : Json → String
  | .str s => renderStr s
  | .arr xs =>
    if xs.isEmpty then "[]"
    else
      "[\n" ++
        String.intercalate ",\n"
          (xs.attach.map (fun x => indentStr (d + 1) ++ renderJson (d + 1) x.1)) ++
        "\n" ++ indentStr d ++ "]"
  | .obj kvs =>
    if kvs.isEmpty then "\x7b\x7d"
    else
      "\x7b\n" ++
        String.intercalate ",\n"
          (kvs.attach.map (fun kv =>
            indentStr (d + 1) ++ renderStr kv.1.1 ++ ": " ++ renderJson (d + 1) kv.1.2)) ++
        "\n" ++ indentStr d ++ "\x7d"
termination_by j => sizeOf j
decreasing_by
  · have h := List.sizeOf_lt_of_mem x.2
    simp only [Json.arr.sizeOf_spec]
    omega
  · have h := List.sizeOf_lt_of_mem kv.2
    rcases kv with ⟨⟨k, v⟩, hm⟩
    simp only [Json.obj.sizeOf_spec, Prod.mk.sizeOf_spec] at h ⊢
    omega

/-- The serializer's text output (`JSON.stringify(..., null, 2)`). -/
def generateJson (cfg : ConfigurationData) (sortEnabled : Bool) : String :=
  renderJson 0 (generateJsonAst cfg sortEnabled)

/-! ## Parsing the serialized output back (model of `JSON.parse` +
untyped property access) -/

/-- Sequence a fallible read over a list (Option-monad `mapM`). -/
def mapMO (f : α → Option β) : List α → Option (List β)
  | [] => some []
  | x :: xs => (f x).bind (fun y => (mapMO f xs).map (fun ys => y :: ys))

/-- Read a JSON string value. -/
def jStr : Json → Option String
  | .str s => some s
  | _ => none

/-- Read a JSON array of strings. -/
def jStrList : Json → Option (List String)
  | .arr xs => mapMO jStr xs
  | _ => none

/-- Read a module record from JSON: every field is optional. -/
def jsonToModule : Json → Option ModuleBase
  | .obj kvs =>
    some
      { Id := (kvs.lookup "Id").bind jStr,
        Version := (kvs.lookup "Version").bind jStr,
        BlobName := (kvs.lookup "BlobName").bind jStr }
  | _ => none

/-- Read a source declaration from JSON. -/
def jsonToSource : Json → Option Source
  | .obj kvs => do
    let name ← (kvs.lookup "Name").bind jStr
    let mods ←
      match kvs.lookup "Modules" with
      | some (.arr xs) => mapMO jsonToModule xs
      | _ => none
    pure
      { Name := name,
        Container := (kvs.lookup "Container").bind jStr,
        ServiceUri := (kvs.lookup "ServiceUri").bind jStr,
        ModuleSources := (kvs.lookup "ModuleSources").bind jStrList,
        Modules := mods }
  | _ => none

/-- Read a full manifest from JSON. -/
def jsonToConfig : Json → Option ConfigurationData
  | .obj kvs => do
    let mv ← (kvs.lookup "ManifestVersion").bind jStr
    let pv ← (kvs.lookup "PlatformVersion").bind jStr
    let pi ← (kvs.lookup "PlatformImage").bind jStr
    let pit ← (kvs.lookup "PlatformImageTag").bind jStr
    let pau ← (kvs.lookup "PlatformAssetUrl").bind jStr
    let ms ← (kvs.lookup "ModuleSources").bind jStrList
    let srcs ←
      match kvs.lookup "Sources" with
      | some (.arr xs) => mapMO jsonToSource xs
      | _ => none
    pure ⟨mv, pv, pi, pit, pau, ms, srcs⟩
  | _ => none

/-! ## Diff reporter (`generateDiffDescription` in `App.vue`) -/

/-- Embedding of `formatVersionChange`. -/
def fmtChange (oldV newV : String) : String :=
  "<span class=\"old-version\">" ++ oldV ++ "</span> → <span class=\"new-version\">" ++
    newV ++ "</span>"

/-- Rendering of a possibly-absent value in a template literal
(JS renders `undefined`). -/
def optDisplay : Option String → String
  | some s => s
  | none => "undefined"

/-- The five scalar platform-field comparisons, in source order. -/
def platformChanges (o c : ConfigurationData) : List String :=
  (if c.ManifestVersion ≠ o.ManifestVersion then
    ["• Manifest Version: " ++ fmtChange o.ManifestVersion c.ManifestVersion] else []) ++
  (if c.PlatformVersion ≠ o.PlatformVersion then
    ["• Platform Version: " ++ fmtChange o.PlatformVersion c.PlatformVersion] else []) ++
  (if c.PlatformImage ≠ o.PlatformImage then
    ["• Platform Image: " ++ fmtChange o.PlatformImage c.PlatformImage] else []) ++
  (if c.PlatformImageTag ≠ o.PlatformImageTag then
    ["• Platform Image Tag: " ++ fmtChange o.PlatformImageTag c.PlatformImageTag] else []) ++
  (if c.PlatformAssetUrl ≠ o.PlatformAssetUrl then
    ["• Platform Asset URL: " ++ fmtChange o.PlatformAssetUrl c.PlatformAssetUrl] else [])

/-- The Module Sources comparison: only index 0 of the list is inspected
(`config.ModuleSources[0] !== originalConfig.ModuleSources[0]`). -/
def moduleSourcesChange (o c : ConfigurationData) : List String :=
  if c.ModuleSources[0]? ≠ o.ModuleSources[0]? then
    ["• Module Sources: " ++ fmtChange (optDisplay o.ModuleSources[0]?)
      (optDisplay c.ModuleSources[0]?)]
  else []

/-- Display of a possibly-absent version string, defaulting to `(none)`. -/
def verDisplay : Option String → String
  | some s => if s = "" then "(none)" else s
  | none => "(none)"

/-- The `getVersion` helper of the diff reporter. -/
def getVersionDiff (m : ModuleBase) (type : String) : String :=
  if type = "GithubReleases" then verDisplay m.Version
  else
    match m.BlobName with
    | none => "(none)"
    | some b =>
      let parts := splitChars '_' b.data
      if 1 < parts.length then ⟨parts.getD 1 []⟩ else "(none)"

/-- Locate a module by identifier anywhere in the original manifest; the
`forEach` has no early exit, so the *last* source with a match wins. -/
def findOriginal (o : ConfigurationData) (moduleId : String) :
    Option (ModuleBase × String) :=
  o.Sources.foldl
    (fun acc src =>
      match src.Modules.find? (fun m =>
        if src.Name = "GithubReleases" then decide (m.Id = some moduleId)
        else match m.BlobName with
          | some b => prefB moduleId.data b.data
          | none => false) with
      | some found => some (found, src.Name)
      | none => acc)
    none

/-- The diff entries produced for one current module record. -/
def moduleEntry (o : ConfigurationData) (srcName : String) (m : ModuleBase) :
    List String :=
  let moduleId := getModuleId m
  match findOriginal o moduleId with
  | none => ["• " ++ moduleId ++ ": added to " ++ srcName]
  | some (om, oName) =>
    if oName ≠ srcName then
      ["• " ++ moduleId ++ ": moved from " ++ oName ++ " to " ++ srcName ++ " (" ++
        fmtChange (getVersionDiff om oName) (getVersionDiff m srcName) ++ ")"]
    else if srcName = "GithubReleases" then
      if om.Version ≠ m.Version then
        ["• " ++ moduleId ++ ": " ++ fmtChange (verDisplay om.Version) (verDisplay m.Version)]
      else []
    else
      let cv := getVersionDiff m srcName
      let ov := getVersionDiff om srcName
      if cv ≠ ov then ["• " ++ moduleId ++ ": " ++ fmtChange ov cv] else []

/-- Diff entries for all current modules, in manifest order. -/
def moduleEntries (o c : ConfigurationData) : List String :=
  c.Sources.flatMap (fun s => s.Modules.flatMap (moduleEntry o s.Name))

/-- The identifiers seen while iterating the current manifest
(the `processedModules` set). -/
def processedIds (c : ConfigurationData) : List String :=
  c.Sources.flatMap (fun s => s.Modules.map getModuleId)

/-- Entries reporting removals: original modules not seen in the current
manifest. -/
def removedEntries (o c : ConfigurationData) : List String :=
  o.Sources.flatMap (fun s =>
    s.Modules.filterMap (fun m =>
      let id := getModuleId m
      if id ∈ processedIds c then none
      else some ("• " ++ id ++ ": removed from " ++ s.Name)))

/-- The full ordered change list of `generateDiffDescription`. -/
def diffChanges (o c : ConfigurationData) : List String :=
  platformChanges o c ++ moduleSourcesChange o c ++ moduleEntries o c ++
    removedEntries o c

/-! ## Concrete manifests used by witnesses and counterexamples -/

/-- A manifest with only a `GithubReleases` source, used to witness C5. -/
def cfgC5 : ConfigurationData :=
  { ManifestVersion := "2.0", PlatformVersion := "3.1.0", PlatformImage := "",
    PlatformImageTag := "", PlatformAssetUrl := "", ModuleSources := [],
    Sources :=
      [{ Name := "GithubReleases", Container := none, ServiceUri := none,
         ModuleSources := some [], Modules := [⟨some "Foo", some "1.0.0", none⟩] }] }

/-- The source used to witness C6. -/
def srcC6 : Source :=
  { Name := "AzureBlob", Container := some "packages", ServiceUri := none,
    ModuleSources := none,
    Modules := [⟨none, none, some "Aaa_1.0.0.zip"⟩, ⟨none, none, some "Bbb_2.0.0.zip"⟩] }

/-- The manifest used to witness C6. -/
def cfgC6 : ConfigurationData :=
  { ManifestVersion := "", PlatformVersion := "", PlatformImage := "",
    PlatformImageTag := "", PlatformAssetUrl := "", ModuleSources := [],
    Sources := [srcC6] }

/-- The conclusion predicate of claim C3: some source of the given kind holds a
module record that projects to the identifier with an empty display value. -/
def storedWithEmptyValue (cfg : ConfigurationData) (id kind : String) : Prop :=
  ∃ s ∈ cfg.Sources, s.Name = kind ∧
    ∃ m ∈ s.Modules, projectModule kind m = some ⟨id, "", kind⟩

instance (cfg : ConfigurationData) (id kind : String) :
    Decidable (storedWithEmptyValue cfg id kind) := by
  unfold storedWithEmptyValue
  infer_instance

/-- Counterexample manifest for C3: the identifier `"a_b"` (containing `_`)
lives under `GithubReleases`; both kinds are declared. -/
def cfgC3 : ConfigurationData :=
  { ManifestVersion := "", PlatformVersion := "", PlatformImage := "",
    PlatformImageTag := "", PlatformAssetUrl := "", ModuleSources := [],
    Sources :=
      [ { Name := "AzureBlob", Container := none, ServiceUri := none,
          ModuleSources := none, Modules := [⟨none, none, some "X_1.zip"⟩] },
        { Name := "GithubReleases", Container := none, ServiceUri := none,
          ModuleSources := some [], Modules := [⟨some "a_b", some "1.0.0", none⟩] } ] }

/-- Witness manifest for the amended C3. -/
def cfgC3w : ConfigurationData :=
  { ManifestVersion := "", PlatformVersion := "", PlatformImage := "",
    PlatformImageTag := "", PlatformAssetUrl := "", ModuleSources := [],
    Sources :=
      [ { Name := "AzureBlob", Container := none, ServiceUri := none,
          ModuleSources := none, Modules := [⟨none, none, some "X_1.zip"⟩] },
        { Name := "GithubReleases", Container := none, ServiceUri := none,
          ModuleSources := some [], Modules := [⟨some "VirtoCommerce.Cart", some "1.0.0", none⟩] } ] }

/-! ## Well-formedness for the round-trip property (claim C1) -/

/-- The blob-match test of the reprojection (`m.BlobName?.startsWith(id)`), as
a standalone helper for well-formedness statements. -/
def bMatch (m : ModuleBase) (id : String) : Bool :=
  match m.BlobName with
  | some b => prefB id.data b.data
  | none => false

/-- The derived identifier of a stored module record under the blob kind. -/
def bIdM (m : ModuleBase) : String :=
  match m.BlobName with
  | some b => bIdOf b
  | none => ""

/-- Well-formedness of a feed-kind module record: identifier present and
non-empty, version present, already trimmed, not the delete sentinel. -/
def moduleGithubWF (m : ModuleBase) : Bool :=
  match m.Id, m.Version with
  | some i, some v =>
    decide (i ≠ "") && decide (jsTrim v = v) && decide (v ≠ "__DELETE__")
  | _, _ => false

/-- Well-formedness of a blob-kind module record: the composite splits into a
non-empty identifier and a trimmed suffix around a single `_`, and the
identifier is a prefix of the composite. -/
def moduleBlobWF (m : ModuleBase) : Bool :=
  match m.BlobName with
  | some b =>
    decide (bIdOf b ≠ "") && decide (b = bIdOf b ++ "_" ++ bValOf b) &&
      decide (jsTrim (bValOf b) = bValOf b) && prefB (bIdOf b).data b.data
  | none => false

/-- Well-formedness of a source declaration: well-formed module records, and
no record can be mistaken for another by the lookup the reprojection uses
(distinct identifiers; for the blob kind, no identifier is a prefix of another
record's composite). -/
def sourceWF (s : Source) : Prop :=
  if s.Name = "GithubReleases" then
    (∀ m ∈ s.Modules, moduleGithubWF m = true) ∧
      s.Modules.Pairwise (fun a b => a.Id ≠ b.Id)
  else
    (∀ m ∈ s.Modules, moduleBlobWF m = true) ∧
      s.Modules.Pairwise (fun a b =>
        bMatch a (bIdM b) = false ∧ bMatch b (bIdM a) = false)

instance (s : Source) : Decidable (sourceWF s) := by
  unfold sourceWF
  infer_instance

/-- Well-formedness of a manifest for the round-trip property: distinct source
names and well-formed sources. -/
def configWF (cfg : ConfigurationData) : Prop :=
  cfg.Sources.Pairwise (fun a b => a.Name ≠ b.Name) ∧ ∀ s ∈ cfg.Sources, sourceWF s

instance (cfg : ConfigurationData) : Decidable (configWF cfg) := by
  unfold configWF
  infer_instance

/-- Counterexample manifest for C1: a blob composite without `_`. -/
def cfgC1bad : ConfigurationData :=
  { ManifestVersion := "", PlatformVersion := "", PlatformImage := "",
    PlatformImageTag := "", PlatformAssetUrl := "", ModuleSources := [],
    Sources := [ { Name := "AzureBlob", Container := none, ServiceUri := none,
                   ModuleSources := none, Modules := [⟨none, none, some "Foo"⟩] } ] }

/-- Witness manifest for the amended C1 (well-formed). -/
def cfgC1w : ConfigurationData :=
  { ManifestVersion := "2.0", PlatformVersion := "3.1.0",
    PlatformImage := "ghcr.io/org/platform", PlatformImageTag := "3.1.0",
    PlatformAssetUrl := "", ModuleSources := ["a"],
    Sources :=
      [ { Name := "GithubReleases", Container := none, ServiceUri := none,
          ModuleSources := some ["a"],
          Modules := [⟨some "VirtoCommerce.Cart", some "1.2.3", none⟩,
                      ⟨some "VirtoCommerce.Assets", some "2.0.0", none⟩] },
        { Name := "AzureBlob", Container := some "packages",
          ServiceUri := some "https://x", ModuleSources := none,
          Modules := [⟨none, none, some "Zoo_1.0.0.zip"⟩,
                      ⟨none, none, some "Foo_1.0.0.zip"⟩] } ] }

/-- Witness manifest for C7. -/
def cfgC7w : ConfigurationData :=
  { ManifestVersion := "2.0", PlatformVersion := "3.1.0",
    PlatformImage := "ghcr.io/org/platform", PlatformImageTag := "3.1.0",
    PlatformAssetUrl := "", ModuleSources := ["b", "a"],
    Sources :=
      [ { Name := "GithubReleases", Container := none, ServiceUri := none,
          ModuleSources := some ["y", "x"],
          Modules := [⟨some "VirtoCommerce.Cart", some "1.2.3", none⟩,
                      ⟨some "VirtoCommerce.Assets", some "2.0.0", none⟩] },
        { Name := "AzureBlob", Container := some "packages",
          ServiceUri := some "https://x", ModuleSources := none,
          Modules := [⟨none, none, some "Zoo_1.0.0.zip"⟩,
                      ⟨none, none, some "Foo_1.0.0.zip"⟩] } ] }

/-! ## Helper lemmas: `findIdxP`, `updateAt`, `foldl` -/

theorem findIdxP_eq_none {p : α → Prop} [DecidablePred p] {l : List α}
    (h : ∀ a ∈ l, ¬ p a) : findIdxP p l = none := by
  induction l with
  | nil => rfl
  | cons x xs ih =>
    simp [findIdxP, h x (List.mem_cons_self x xs),
      ih (fun a ha => h a (List.mem_cons_of_mem x ha))]

theorem findIdxP_some {p : α → Prop} [DecidablePred p] :
    ∀ {l : List α} {i : Nat}, findIdxP p l = some i → ∃ x, l[i]? = some x ∧ p x
  | [], _, h => by simp [findIdxP] at h
  | a :: l, i, h => by
    by_cases hp : p a
    · simp [findIdxP, hp] at h
      subst h
      exact ⟨a, by simp, hp⟩
    · simp [findIdxP, hp] at h
      obtain ⟨j, hj, rfl⟩ := h
      obtain ⟨x, hx, hpx⟩ := findIdxP_some hj
      exact ⟨x, by simpa using hx, hpx⟩

theorem findIdxP_exists {p : α → Prop} [DecidablePred p] :
    ∀ {l : List α} {x : α}, x ∈ l → p x →
      ∃ i y, findIdxP p l = some i ∧ l[i]? = some y ∧ p y
  | [], x, hm, _ => absurd hm (List.not_mem_nil x)
  | x' :: xs, x, hm, hp => by
    by_cases hp' : p x'
    · exact ⟨0, x', by simp [findIdxP, hp'], by simp, hp'⟩
    · rcases List.mem_cons.mp hm with rfl | hm'
      · exact absurd hp hp'
      · obtain ⟨i, y, h1, h2, h3⟩ := findIdxP_exists hm' hp
        exact ⟨i + 1, y, by simp [findIdxP, hp', h1], by simpa using h2, h3⟩

/-- When the pairwise relation `R` guarantees that nothing standing before `m`
satisfies `p`, `findIndex` locates `m` itself. -/
theorem findIdxP_eq_mem {R : α → α → Prop} {p : α → Prop} [DecidablePred p] {m : α} :
    ∀ {l : List α}, l.Pairwise R → m ∈ l → p m → (∀ a, R a m → ¬ p a) →
      ∃ i, findIdxP p l = some i ∧ l[i]? = some m
  | [], _, hm, _, _ => absurd hm (List.not_mem_nil m)
  | x :: xs, hpair, hm, hpm, hR => by
    rcases List.mem_cons.mp hm with rfl | hm'
    · exact ⟨0, by simp [findIdxP, hpm], by simp⟩
    · have hRx : R x m := (List.pairwise_cons.mp hpair).1 m hm'
      obtain ⟨i, hfind, hget⟩ :=
        findIdxP_eq_mem (List.pairwise_cons.mp hpair).2 hm' hpm hR
      exact ⟨i + 1, by simp [findIdxP, hR x hRx, hfind], by simpa using hget⟩

theorem findIdxP_append {p : α → Prop} [DecidablePred p] {s : α} (hs : p s) :
    ∀ (pre post : List α), (∀ a ∈ pre, ¬ p a) →
      findIdxP p (pre ++ s :: post) = some pre.length
  | [], _, _ => by simp [findIdxP, hs]
  | x :: pre, post, hpre => by
    simp [findIdxP, hpre x (List.mem_cons_self _ _),
      findIdxP_append hs pre post (fun a ha => hpre a (List.mem_cons_of_mem _ ha))]

theorem updateAt_self {f : α → α} :
    ∀ {l : List α} {i : Nat} {x : α}, l[i]? = some x → f x = x → updateAt i f l = l
  | [], _, _, h, _ => by simp at h
  | a :: l, 0, x, h, hf => by
    simp at h
    subst h
    simp [updateAt, hf]
  | a :: l, i + 1, x, h, hf => by
    simp at h
    simp [updateAt, updateAt_self h hf]

theorem updateAt_append {f : α → α} :
    ∀ (pre : List α) (s : α) (post : List α),
      updateAt pre.length f (pre ++ s :: post) = pre ++ f s :: post
  | [], _, _ => rfl
  | x :: pre, s, post => by
    simp [updateAt, List.length_cons, updateAt_append pre s post]

theorem mem_updateAt {f : α → α} :
    ∀ {l : List α} {i : Nat} {x : α}, l[i]? = some x → f x ∈ updateAt i f l
  | [], _, _, h => by simp at h
  | a :: l, 0, x, h => by
    simp at h
    subst h
    simp [updateAt]
  | a :: l, i + 1, x, h => by
    simp at h
    simpa [updateAt] using Or.inr (mem_updateAt h)

theorem map_updateAt {f : α → α} {g : α → β} (hf : ∀ x, g (f x) = g x) :
    ∀ (i : Nat) (l : List α), (updateAt i f l).map g = l.map g
  | i, [] => by cases i <;> rfl
  | 0, x :: xs => by simp [updateAt, hf]
  | i + 1, x :: xs => by simp [updateAt, map_updateAt hf i xs]

theorem foldl_fixed {g : β → α → β} {b : β} :
    ∀ {l : List α}, (∀ a ∈ l, g b a = b) → l.foldl g b = b
  | [], _ => rfl
  | x :: xs, h => by
    rw [List.foldl_cons, h x (List.mem_cons_self x xs)]
    exact foldl_fixed (fun a ha => h a (List.mem_cons_of_mem x ha))

/-! ## Helper lemmas: `splitChars` -/

theorem splitChars_ne_nil (sep : Char) : ∀ cs : List Char, splitChars sep cs ≠ []
  | [] => by simp [splitChars]
  | c :: cs => by
    by_cases h : c = sep <;> simp [splitChars, h]

theorem splitChars_headD (sep : Char) :
    ∀ cs : List Char, (splitChars sep cs).headD [] = cs.takeWhile (fun c => c != sep)
  | [] => rfl
  | c :: cs => by
    by_cases h : c = sep
    · subst h
      simp [splitChars]
    · have ih := splitChars_headD sep cs
      simp only [splitChars, if_neg h, List.headD_cons]
      rw [ih, List.takeWhile_cons]
      simp [h]

theorem splitChars_no_sep {sep : Char} :
    ∀ {cs : List Char}, (∀ c ∈ cs, c ≠ sep) → splitChars sep cs = [cs]
  | [], _ => rfl
  | c :: cs, h => by
    have h1 : c ≠ sep := h c (List.mem_cons_self _ _)
    have h2 := splitChars_no_sep (fun a ha => h a (List.mem_cons_of_mem _ ha))
    simp [splitChars, h1, h2]

theorem splitChars_append_sep {sep : Char} :
    ∀ {pre rest : List Char}, (∀ c ∈ pre, c ≠ sep) →
      splitChars sep (pre ++ sep :: rest) = pre :: splitChars sep rest
  | [], rest, _ => by simp [splitChars]
  | c :: pre, rest, h => by
    have h1 : c ≠ sep := h c (List.mem_cons_self _ _)
    have h2 := @splitChars_append_sep sep pre rest
      (fun a ha => h a (List.mem_cons_of_mem _ ha))
    simp [splitChars, h1, h2]

theorem splitChars_getD_one (sep : Char) :
    ∀ cs : List Char,
      (splitChars sep cs).getD 1 [] =
        if sep ∈ cs then ((cs.dropWhile (fun c => c != sep)).tail).takeWhile (fun c => c != sep)
        else []
  | [] => rfl
  | c :: cs => by
    obtain ⟨r0, rs, hr⟩ : ∃ r0 rs, splitChars sep cs = r0 :: rs := by
      cases hcase : splitChars sep cs with
      | nil => exact absurd hcase (splitChars_ne_nil sep cs)
      | cons r0 rs => exact ⟨r0, rs, rfl⟩
    by_cases h : c = sep
    · subst h
      have hh := splitChars_headD c cs
      rw [hr] at hh
      simp only [List.headD_cons] at hh
      simp only [splitChars, if_pos rfl, hr, List.getD_cons_succ, List.getD_cons_zero]
      simp [hh, List.dropWhile_cons]
    · have hsc : ¬(sep = c) := fun e => h e.symm
      have ih := splitChars_getD_one sep cs
      simp only [splitChars, if_neg h, hr, List.headD_cons, List.tail_cons,
        List.getD_cons_succ] at ih ⊢
      rw [ih]
      simp [List.mem_cons, List.dropWhile_cons, h, hsc]

/-! ## Helper lemmas: `lexLe` (totality and transitivity) -/

theorem lexLe_total : ∀ a b : List Char, lexLe a b = true ∨ lexLe b a = true
  | [], _ => Or.inl rfl
  | _ :: _, [] => Or.inr rfl
  | c :: cs, d :: ds => by
    by_cases h : c = d
    · subst h
      simpa [lexLe] using lexLe_total cs ds
    · rcases lt_or_gt_of_ne h with hlt | hgt
      · left
        simp [lexLe, h, hlt]
      · right
        simp [lexLe, Ne.symm h, hgt]

theorem lexLe_trans :
    ∀ a b c : List Char, lexLe a b = true → lexLe b c = true → lexLe a c = true
  | [], _, _, _, _ => rfl
  | _ :: _, [], _, h, _ => by simp [lexLe] at h
  | _ :: _, _ :: _, [], _, h => by simp [lexLe] at h
  | x :: xs, y :: ys, z :: zs, h1, h2 => by
    by_cases hxy : x = y
    · subst hxy
      by_cases hxz : x = z
      · subst hxz
        simp only [lexLe, if_pos rfl] at h1 h2 ⊢
        exact lexLe_trans _ _ _ h1 h2
      · simp only [lexLe, if_pos rfl] at h1
        simpa [lexLe, hxz] using h2
    · by_cases hyz : y = z
      · subst hyz
        simpa [lexLe, hxy] using h1
      · simp only [lexLe, if_neg hxy, decide_eq_true_eq] at h1
        simp only [lexLe, if_neg hyz, decide_eq_true_eq] at h2
        have hxz : x < z := lt_trans h1 h2
        simp [lexLe, ne_of_lt hxz, hxz]

instance : IsTotal Source srcLe :=
  ⟨fun a b => lexLe_total a.Name.data b.Name.data⟩

instance : IsTrans Source srcLe :=
  ⟨fun _ _ _ h1 h2 => lexLe_trans _ _ _ h1 h2⟩

instance : IsTotal ModuleBase modLe :=
  ⟨fun a b => lexLe_total (getModuleId a).data (getModuleId b).data⟩

instance : IsTrans ModuleBase modLe :=
  ⟨fun _ _ _ h1 h2 => lexLe_trans _ _ _ h1 h2⟩

instance : IsTotal String strLeP :=
  ⟨fun a b => lexLe_total a.data b.data⟩

instance : IsTrans String strLeP :=
  ⟨fun _ _ _ h1 h2 => lexLe_trans _ _ _ h1 h2⟩

instance : IsTotal String strDescLe :=
  ⟨fun a b => lexLe_total b.data a.data⟩

instance : IsTrans String strDescLe :=
  ⟨fun _ _ _ h1 h2 => lexLe_trans _ _ _ h2 h1⟩

/-! ## Claim C5: unmatched kind is a no-op -/

/-- C5: for every manifest and every edit (`handleModuleUpdate`) whose kind has
no matching source declaration, the operation is a no-op: the returned manifest
is the original, with no partial modification. -/
theorem C5_unmatched_kind_noop (cfg : ConfigurationData) (id type value : String)
    (h : ∀ s ∈ cfg.Sources, s.Name ≠ type) :
    handleModuleUpdate cfg id type value = cfg := by
  unfold handleModuleUpdate
  rw [findIdxP_eq_none h]

/-- Witness for C5 at a concrete manifest without an `AzureBlob` source. -/
theorem C5_witness :
    (∀ s ∈ cfgC5.Sources, s.Name ≠ "AzureBlob") ∧
      handleModuleUpdate cfgC5 "Foo" "AzureBlob" "Foo_1.0.0.zip" = cfgC5 :=
  ⟨by decide, C5_unmatched_kind_noop cfgC5 "Foo" "AzureBlob" "Foo_1.0.0.zip" (by decide)⟩

/-! ## Claim C6: delete sentinel with no matching record removes the last
module (`splice(-1, 1)`) -/

/-- C6: when the delete sentinel reaches a source whose module list is
non-empty but contains no matching record, `findIndex` returns `-1` and
`splice(-1, 1)` removes the *last* record of the list — not a no-op. -/
theorem C6_delete_unmatched_removes_last (cfg : ConfigurationData) (id type : String)
    (pre post : List Source) (s : Source)
    (hsrc : cfg.Sources = pre ++ s :: post)
    (hpre : ∀ a ∈ pre, a.Name ≠ type)
    (hname : s.Name = type)
    (hne : s.Modules ≠ [])
    (hnomatch : ∀ m ∈ s.Modules, moduleMatches type id m = false) :
    (handleModuleUpdate cfg id type "__DELETE__").Sources =
        pre ++ { s with Modules := s.Modules.dropLast } :: post ∧
      s.Modules.dropLast.length + 1 = s.Modules.length := by
  have hfind : findIdxP (fun a => a.Name = type) cfg.Sources = some pre.length := by
    rw [hsrc]
    exact findIdxP_append (p := fun a => a.Name = type) hname pre post hpre
  have hnf : findIdxP (fun m => moduleMatches type id m = true) s.Modules = none :=
    findIdxP_eq_none (fun m hm => by simp [hnomatch m hm])
  have hupd : updateSourceModules id type "__DELETE__" s =
      { s with Modules := s.Modules.dropLast } := by
    unfold updateSourceModules
    rw [if_pos rfl, hnf]
  constructor
  · unfold handleModuleUpdate
    rw [hfind]
    simp only [hsrc, updateAt_append, hupd]
  · have : 0 < s.Modules.length := List.length_pos.mpr hne
    simp only [List.length_dropLast]
    omega

/-- Witness for C6: deleting an identifier absent from a non-empty blob source
removes its last module record. -/
theorem C6_witness :
    (handleModuleUpdate cfgC6 "Nope" "AzureBlob" "__DELETE__").Sources =
        [] ++ { srcC6 with Modules := srcC6.Modules.dropLast } :: [] ∧
      srcC6.Modules.dropLast.length + 1 = srcC6.Modules.length :=
  C6_delete_unmatched_removes_last cfgC6 "Nope" "AzureBlob" [] [] srcC6
    (by decide) (by decide) (by decide) (by decide) (by decide)

/-! ## Claim C9: tag processing -/

/-- C9: tag processing strips an optional leading `v`, keeps only semantic
versions, and sorts the survivors descending by string comparison; in
particular `["v2.1.0", "v1.9.9", "bad-tag"]` processes to `["2.1.0", "1.9.9"]`. -/
theorem C9_tag_processing (tags : List String) :
    List.Perm (processTags tags)
        ((tags.map stripLeadingV).filter (fun t => isValidVersion t)) ∧
      List.Pairwise strDescLe (processTags tags) ∧
      processTags ["v2.1.0", "v1.9.9", "bad-tag"] = ["2.1.0", "1.9.9"] :=
  ⟨List.perm_insertionSort _ _, List.sorted_insertionSort _ _, by decide⟩

/-! ## Claim C10: Module Sources diff looks only at index 0 -/

/-- C10: the diff reporter emits a Module Sources entry iff the elements at
index 0 differ; the entry block is part of the full change list. -/
theorem C10_module_sources_diff (o c : ConfigurationData) :
    (moduleSourcesChange o c ≠ [] ↔ c.ModuleSources[0]? ≠ o.ModuleSources[0]?) ∧
      (moduleSourcesChange o c).Sublist (diffChanges o c) := by
  constructor
  · unfold moduleSourcesChange
    by_cases h : c.ModuleSources[0]? ≠ o.ModuleSources[0]?
    · simp [h]
    · simp [if_neg h, h]
  · exact ((List.sublist_append_right _ _).trans
      (List.sublist_append_left _ _)).trans (List.sublist_append_left _ _)

/-! ## Claim C2: sorted serialization -/

theorem rebuildSource_name (s : Source) : (rebuildSource s).Name = s.Name := by
  unfold rebuildSource
  split <;> rfl

theorem rebuildSource_modules (s : Source) :
    (rebuildSource s).Modules = List.insertionSort modLe s.Modules := by
  unfold rebuildSource
  split <;> rfl

theorem rebuildSource_moduleSources (s : Source) (l : List String)
    (h : (rebuildSource s).ModuleSources = some l) : List.Pairwise strLeP l := by
  unfold rebuildSource at h
  split at h
  · simp at h
  · simp only [Option.some.injEq] at h
    rw [← h]
    exact List.sorted_insertionSort strLeP _

/-- C2: with sorting enabled, the serialized manifest has its source
declarations sorted by kind name, the modules of every source sorted by their
derived identifier (`getModuleId`, which splits blob composites), every
module-sources list sorted lexicographically — and, for every value of
`sortEnabled`, the fixed top-level key order. -/
theorem C2_sorted_serialization (cfg : ConfigurationData) (sortEnabled : Bool) :
    jsonTopKeys (generateJsonAst cfg sortEnabled) =
        ["ManifestVersion", "PlatformVersion", "PlatformImage", "PlatformImageTag",
         "PlatformAssetUrl", "ModuleSources", "Sources"] ∧
      List.Pairwise strLeP ((sortConfig cfg).Sources.map (·.Name)) ∧
      (∀ s ∈ (sortConfig cfg).Sources,
        List.Pairwise strLeP (s.Modules.map getModuleId) ∧
          ∀ l, s.ModuleSources = some l → List.Pairwise strLeP l) ∧
      List.Pairwise strLeP (sortConfig cfg).ModuleSources := by
  refine ⟨rfl, ?_, ?_, List.sorted_insertionSort strLeP _⟩
  · have hsorted : List.Pairwise srcLe (List.insertionSort srcLe cfg.Sources) :=
      List.sorted_insertionSort srcLe _
    have hmap :
        ((List.insertionSort srcLe cfg.Sources).map rebuildSource).map (·.Name) =
          (List.insertionSort srcLe cfg.Sources).map (·.Name) := by
      rw [List.map_map]
      exact List.map_congr_left (fun s _ => rebuildSource_name s)
    show List.Pairwise strLeP
      (((List.insertionSort srcLe cfg.Sources).map rebuildSource).map (·.Name))
    rw [hmap]
    exact hsorted.map _ (fun a b h => h)
  · intro s hs
    obtain ⟨s0, _, rfl⟩ := List.mem_map.mp hs
    constructor
    · rw [rebuildSource_modules]
      exact (List.sorted_insertionSort modLe _).map _ (fun a b h => h)
    · exact rebuildSource_moduleSources s0

/-! ## Claim C4: blob display value -/

/-- C4 counterexample: for the composite `"Foo_1.2_3.zip"` the projected
display value is `"1.2"` (the second `_`-field), not the substring after the
first `_` (`"1.2_3.zip"`) that the claim describes. -/
theorem C4_counterexample :
    projectModule "AzureBlob" ⟨none, none, some "Foo_1.2_3.zip"⟩ =
        some ⟨"Foo", "1.2", "AzureBlob"⟩ ∧
      afterFirstUnderscoreSpec "Foo_1.2_3.zip" = "1.2_3.zip" ∧
      ("1.2" : String) ≠ "1.2_3.zip" := by
  refine ⟨by decide, by decide, by decide⟩

/-- C4 amended: the projected display value of a blob composite is the
substring strictly after the first `_` *up to but excluding the next `_`*
(the second field of the `_`-split), or `""` when the composite contains no
`_`; and the blob branch of the projection reads exactly this value. -/
theorem C4_amended_display (b : String) :
    bValOf b =
        (if '_' ∈ b.data then
          (⟨((b.data.dropWhile (fun c => c != '_')).tail).takeWhile (fun c => c != '_')⟩ : String)
        else "") ∧
      projectModule "AzureBlob" ⟨none, none, some b⟩ =
        (if bIdOf b = "" then none else some ⟨bIdOf b, bValOf b, "AzureBlob"⟩) := by
  constructor
  · unfold bValOf
    rw [splitChars_getD_one]
    split <;> rfl
  · unfold projectModule
    rw [if_neg (show ("AzureBlob" : String) ≠ "GithubReleases" by decide)]

/-! ## Claim C8: the artifact-filename predicate -/

theorem all_takeWhile (p : α → Bool) : ∀ l : List α, (l.takeWhile p).all p = true
  | [] => rfl
  | x :: xs => by
    cases hp : p x with
    | true => simp [List.takeWhile_cons, hp, all_takeWhile p xs]
    | false => simp [List.takeWhile_cons, hp]

theorem takeWhile_append_cons {p : α → Bool} :
    ∀ {a : List α} {c : α} {r : List α}, a.all p = true → p c = false →
      (a ++ c :: r).takeWhile p = a ∧ (a ++ c :: r).dropWhile p = c :: r
  | [], c, r, _, hc => by simp [List.takeWhile_cons, List.dropWhile_cons, hc]
  | x :: a, c, r, ha, hc => by
    simp only [List.all_cons, Bool.and_eq_true] at ha
    have ih := takeWhile_append_cons (a := a) (c := c) (r := r) ha.2 hc
    simp [List.takeWhile_cons, List.dropWhile_cons, ha.1, ih.1, ih.2]

theorem matchDigitsDot_eq_some {cs r : List Char} :
    matchDigitsDot cs = some r ↔
      ∃ a, cs = a ++ '.' :: r ∧ a ≠ [] ∧ a.all isDigitCh = true := by
  constructor
  · intro h
    unfold matchDigitsDot at h
    split at h
    · rename_i x xs r' htake hdrop
      simp only [Option.some.injEq] at h
      subst h
      refine ⟨x :: xs, ?_, by simp, ?_⟩
      · conv_lhs => rw [← List.takeWhile_append_dropWhile isDigitCh cs]
        rw [htake, hdrop]
      · rw [← htake]
        exact all_takeWhile isDigitCh cs
    · exact absurd h (by simp)
  · rintro ⟨a, rfl, ha, hall⟩
    obtain ⟨ht, hd⟩ := takeWhile_append_cons hall (show isDigitCh '.' = false from rfl)
    unfold matchDigitsDot
    rw [ht, hd]
    cases a with
    | nil => exact absurd rfl ha
    | cons x xs => rfl

theorem blobTailCore_iff {r5 : List Char} :
    blobTailCore r5 = true ↔
      (r5 = ['.', 'z', 'i', 'p'] ∨
        ∃ t, r5 = '-' :: (t ++ ['.', 'z', 'i', 'p']) ∧ t ≠ [] ∧
          t.all isWordDotDash = true) := by
  constructor
  · intro h
    unfold blobTailCore at h
    split at h
    · exact Or.inl rfl
    · rename_i r
      right
      simp only [Bool.and_eq_true, decide_eq_true_eq] at h
      obtain ⟨⟨hlen, hdrop⟩, htake⟩ := h
      refine ⟨r.take (r.length - 4), ?_, ?_, htake⟩
      · have hsplit := List.take_append_drop (r.length - 4) r
        rw [hdrop] at hsplit
        rw [hsplit]
      · intro hnil
        have hlt := List.length_take (r.length - 4) r
        rw [hnil] at hlt
        simp only [List.length_nil] at hlt
        omega
    · exact absurd h (by simp)
  · intro h
    rcases h with rfl | ⟨t, rfl, ht, hall⟩
    · rfl
    · show (decide (5 ≤ (t ++ ['.', 'z', 'i', 'p']).length) &&
          decide ((t ++ ['.', 'z', 'i', 'p']).drop ((t ++ ['.', 'z', 'i', 'p']).length - 4) =
            ['.', 'z', 'i', 'p']) &&
          ((t ++ ['.', 'z', 'i', 'p']).take ((t ++ ['.', 'z', 'i', 'p']).length - 4)).all
            isWordDotDash) = true
      have ht' : 0 < t.length := List.length_pos.mpr ht
      have hl : (t ++ ['.', 'z', 'i', 'p']).length - 4 = t.length := by simp
      rw [hl, List.drop_left, List.take_left]
      simp only [Bool.and_eq_true, decide_eq_true_eq]
      refine ⟨⟨?_, trivial⟩, hall⟩

      simp only [List.length_append, List.length_cons, List.length_nil]
      omega

theorem blobCore_iff (cs : List Char) : blobCore cs = true ↔ ArtifactRegexMatch cs := by
  constructor
  · intro h
    unfold blobCore at h
    cases h2 : matchDigitsDot cs with
    | none =>
      simp only [h2] at h
      exact Bool.noConfusion h
    | some r2 =>
      simp only [h2] at h
      cases h4 : matchDigitsDot r2 with
      | none =>
        simp only [h4] at h
        exact Bool.noConfusion h
      | some r4 =>
        simp only [h4] at h
        cases h5 : r4.takeWhile isDigitCh with
        | nil =>
          simp only [h5] at h
          exact Bool.noConfusion h
        | cons x xs =>
          simp only [h5] at h
          obtain ⟨a, hcs, ha, halla⟩ := matchDigitsDot_eq_some.mp h2
          obtain ⟨b, hr2, hb, hallb⟩ := matchDigitsDot_eq_some.mp h4
          refine ⟨a, b, x :: xs, r4.dropWhile isDigitCh, ?_, ha, halla, hb, hallb,
            by simp, ?_, blobTailCore_iff.mp h⟩
          · rw [hcs, hr2]
            have : r4 = (x :: xs) ++ r4.dropWhile isDigitCh := by
              conv_lhs => rw [← List.takeWhile_append_dropWhile isDigitCh r4]
              rw [h5]
            rw [← this]
          · rw [← h5]
            exact all_takeWhile isDigitCh r4
  · rintro ⟨a, b, c, tail, rfl, ha, halla, hb, hallb, hc, hallc, htail⟩
    unfold blobCore
    have e1 : matchDigitsDot (a ++ '.' :: (b ++ '.' :: (c ++ tail))) =
        some (b ++ '.' :: (c ++ tail)) :=
      matchDigitsDot_eq_some.mpr ⟨a, rfl, ha, halla⟩
    have e2 : matchDigitsDot (b ++ '.' :: (c ++ tail)) = some (c ++ tail) :=
      matchDigitsDot_eq_some.mpr ⟨b, rfl, hb, hallb⟩
    have hhead : ∃ d ds, tail = d :: ds ∧ isDigitCh d = false := by
      rcases htail with rfl | ⟨t, rfl, _, _⟩
      · exact ⟨'.', _, rfl, rfl⟩
      · exact ⟨'-', _, rfl, rfl⟩
    obtain ⟨d, ds, htl, hd⟩ := hhead
    rw [htl] at htail e1 e2 ⊢
    obtain ⟨ht, hdr⟩ := takeWhile_append_cons hallc hd
    cases c with
    | nil => exact absurd rfl hc
    | cons y ys =>
      simp only [e1, e2]
      rw [ht, hdr]
      show blobTailCore (d :: ds) = true
      exact blobTailCore_iff.mpr htail

/-- C8: the artifact-filename predicate accepts exactly the trimmed strings in
the language of `^\d+\.\d+\.\d+(-[\w.-]+)?\.zip$`; in particular it accepts
`"3.806.0-pr-62-df9c.zip"` and rejects `"3.806.0.tar"`. -/
theorem C8_artifact_predicate (s : String) :
    (isValidBlobName s = true ↔ ArtifactRegexMatch (trimChars s.data)) ∧
      isValidBlobName "3.806.0-pr-62-df9c.zip" = true ∧
      isValidBlobName "3.806.0.tar" = false :=
  ⟨blobCore_iff (trimChars s.data), by decide, by decide⟩

/-! ## Claim C3: round-trip move -/

theorem updateSourceModules_name (id type v : String) (s : Source) :
    (updateSourceModules id type v s).Name = s.Name := by
  unfold updateSourceModules
  split <;> rfl

theorem handleModuleUpdate_names (cfg : ConfigurationData) (id type v : String) :
    (handleModuleUpdate cfg id type v).Sources.map (·.Name) =
      cfg.Sources.map (·.Name) := by
  unfold handleModuleUpdate
  cases h : findIdxP (fun s => s.Name = type) cfg.Sources with
  | none => simp only [h]
  | some i =>
    simp only [h]
    exact map_updateAt (fun s => updateSourceModules_name id type v s) i _

theorem bIdOf_append_underscore (id : String) (h : '_' ∉ id.data) :
    bIdOf (id ++ "_") = id := by
  unfold bIdOf
  rw [String.data_append]
  rw [show ("_" : String).data = ['_'] from rfl]
  rw [splitChars_append_sep (fun c hc he => h (by rw [← he]; exact hc))]
  rfl

theorem bValOf_append_underscore (id : String) (h : '_' ∉ id.data) :
    bValOf (id ++ "_") = "" := by
  unfold bValOf
  rw [String.data_append]
  rw [show ("_" : String).data = ['_'] from rfl]
  rw [splitChars_append_sep (fun c hc he => h (by rw [← he]; exact hc))]
  rfl

theorem projectModule_id_ne {name : String} {m : ModuleBase} {r : ViewRecord}
    (h : projectModule name m = some r) : r.id ≠ "" := by
  unfold projectModule at h
  split at h
  · cases hh : m.Id with
    | none => simp [hh] at h
    | some i =>
      simp only [hh] at h
      split at h
      · exact absurd h (by simp)
      · rename_i hne
        simp only [Option.some.injEq] at h
        subst h
        exact hne
  · cases hh : m.BlobName with
    | none => simp [hh] at h
    | some b =>
      simp only [hh] at h
      split at h
      · exact absurd h (by simp)
      · rename_i hne
        simp only [Option.some.injEq] at h
        subst h
        exact hne

theorem projected_id_ne_empty {cfg : ConfigurationData} {id : String}
    (hid : id ∈ (projectModules cfg).map (·.id)) : id ≠ "" := by
  obtain ⟨r, hr, rfl⟩ := List.mem_map.mp hid
  obtain ⟨s, _, hrs⟩ := List.mem_flatMap.mp hr
  obtain ⟨m, _, hm⟩ := List.mem_filterMap.mp hrs
  exact projectModule_id_ne hm

/-- The core of the amended C3: an insert-or-update with an empty value under
kind `k1` always leaves the identifier stored under `k1` with an empty display
value (for the blob kind, provided the identifier contains no `_`). -/
theorem update_empty_stored (cfg : ConfigurationData) (id k1 : String)
    (hid : id ≠ "") (hk : k1 = "GithubReleases" ∨ '_' ∉ id.data)
    (hmem : k1 ∈ cfg.Sources.map (·.Name)) :
    storedWithEmptyValue (handleModuleUpdate cfg id k1 "") id k1 := by
  obtain ⟨s0, hs0, hs0name⟩ := List.mem_map.mp hmem
  obtain ⟨j, s, hfind, hget, hps⟩ := findIdxP_exists (p := fun s => s.Name = k1) hs0 hs0name
  have hproj : ∀ m' : ModuleBase,
      (k1 = "GithubReleases" → m'.Id = some id ∧ m'.Version = some "") →
      (k1 ≠ "GithubReleases" → m'.BlobName = some (id ++ "_")) →
      projectModule k1 m' = some ⟨id, "", k1⟩ := by
    intro m' hgh hbl
    by_cases hk1 : k1 = "GithubReleases"
    · obtain ⟨hId, hV⟩ := hgh hk1
      unfold projectModule
      rw [if_pos hk1]
      simp only [hId]
      simp [hid, hV]
    · have hbn := hbl hk1
      have hund : '_' ∉ id.data := hk.resolve_left hk1
      unfold projectModule
      rw [if_neg hk1]
      simp only [hbn]
      rw [bIdOf_append_underscore id hund, bValOf_append_underscore id hund]
      simp [hid]
  have hne_del : ("" : String) ≠ "__DELETE__" := by decide
  set f := setModuleValue id k1 "" with hf
  have hfm : ∀ m : ModuleBase, moduleMatches k1 id m = true →
      projectModule k1 (f m) = some ⟨id, "", k1⟩ := by
    intro m hpm
    apply hproj
    · intro hk1
      rw [hf]
      unfold setModuleValue
      rw [if_pos hk1]
      rw [hk1] at hpm
      unfold moduleMatches at hpm
      rw [if_pos rfl] at hpm
      exact ⟨of_decide_eq_true hpm, rfl⟩
    · intro hk1
      rw [hf]
      unfold setModuleValue
      rw [if_neg hk1]
      simp
  have hnew : ∀ _h : True, projectModule k1 (newModule id k1 "") = some ⟨id, "", k1⟩ := by
    intro _
    apply hproj
    · intro hk1
      unfold newModule
      rw [if_pos hk1]
      exact ⟨rfl, rfl⟩
    · intro hk1
      unfold newModule
      rw [if_neg hk1]
      simp
  have hupd : updateSourceModules id k1 "" s =
      { s with Modules := applyEdit (moduleMatches k1 id) f (newModule id k1 "") s.Modules } := by
    unfold updateSourceModules
    rw [if_neg hne_del]
  refine ⟨updateSourceModules id k1 "" s, ?_, ?_, ?_⟩
  · unfold handleModuleUpdate
    rw [hfind]
    exact mem_updateAt hget
  · rw [updateSourceModules_name]
    exact hps
  · rw [hupd]
    unfold applyEdit
    cases hfm2 : findIdxP (fun m => moduleMatches k1 id m = true) s.Modules with
    | none =>
      exact ⟨newModule id k1 "", by simp, hnew trivial⟩
    | some i =>
      obtain ⟨m, hm, hpm⟩ := findIdxP_some hfm2
      exact ⟨f m, mem_updateAt hm, hfm m hpm⟩

/-- C3 counterexample: with `id = "a_b"` (an identifier containing `_`,
present under `GithubReleases`), moving `AzureBlob → GithubReleases` and back
does *not* leave the identifier stored under `AzureBlob` with an empty display
value: the stored composite `"a_b_"` projects to identifier `"a"` and value
`"b"`. -/
theorem C3_counterexample :
    (∃ s ∈ cfgC3.Sources, s.Name = "AzureBlob") ∧
      (∃ s ∈ cfgC3.Sources, s.Name = "GithubReleases") ∧
      "a_b" ∈ (projectModules cfgC3).map (·.id) ∧
      ¬ storedWithEmptyValue
          (applyMove (applyMove cfgC3 "a_b" "AzureBlob" "GithubReleases")
            "a_b" "GithubReleases" "AzureBlob")
          "a_b" "AzureBlob" :=
  ⟨by decide, by decide, by decide, by decide⟩

/-- C3 (amended): for every identifier present in the manifest and kinds
`k1 ≠ k2` whose sources both exist, `moveModule(id, k1, k2)` followed by
`moveModule(id, k2, k1)` leaves the identifier stored under `k1` with an empty
display value — provided the identifier contains no `_` when `k1` is not the
feed kind. -/
theorem C3_move_roundtrip (cfg : ConfigurationData) (id k1 k2 : String)
    (h1 : k1 ∈ cfg.Sources.map (·.Name)) (_h2 : k2 ∈ cfg.Sources.map (·.Name))
    (_hne : k1 ≠ k2)
    (hid : id ∈ (projectModules cfg).map (·.id))
    (hk : k1 = "GithubReleases" ∨ '_' ∉ id.data) :
    storedWithEmptyValue (applyMove (applyMove cfg id k1 k2) id k2 k1) id k1 := by
  have hid' : id ≠ "" := projected_id_ne_empty hid
  unfold applyMove
  apply update_empty_stored _ id k1 hid' hk
  rw [handleModuleUpdate_names, handleModuleUpdate_names, handleModuleUpdate_names]
  exact h1

/-- Witness for the amended C3 at a concrete manifest (feed kind as `k1`). -/
theorem C3_witness :
    ("GithubReleases" ∈ cfgC3w.Sources.map (·.Name)) ∧
      ("AzureBlob" ∈ cfgC3w.Sources.map (·.Name)) ∧
      ("GithubReleases" : String) ≠ "AzureBlob" ∧
      "VirtoCommerce.Cart" ∈ (projectModules cfgC3w).map (·.id) ∧
      storedWithEmptyValue
        (applyMove (applyMove cfgC3w "VirtoCommerce.Cart" "GithubReleases" "AzureBlob")
          "VirtoCommerce.Cart" "AzureBlob" "GithubReleases")
        "VirtoCommerce.Cart" "GithubReleases" :=
  ⟨by decide, by decide, by decide, by decide,
    C3_move_roundtrip cfgC3w "VirtoCommerce.Cart" "GithubReleases" "AzureBlob"
      (by decide) (by decide) (by decide) (by decide) (Or.inl rfl)⟩

/-! ## Claim C1: projection / reprojection round trip -/

/-- Inversion of a successful projection. -/
theorem projectModule_inv {name : String} {m : ModuleBase} {r : ViewRecord}
    (h : projectModule name m = some r) :
    r.sourceType = name ∧ r.id ≠ "" ∧
      (name = "GithubReleases" → m.Id = some r.id ∧ r.value = m.Version.getD "") ∧
      (name ≠ "GithubReleases" →
        ∃ b, m.BlobName = some b ∧ r.id = bIdOf b ∧ r.value = bValOf b) := by
  unfold projectModule at h
  by_cases hn : name = "GithubReleases"
  · rw [if_pos hn] at h
    cases hh : m.Id with
    | none => simp [hh] at h
    | some i =>
      simp only [hh] at h
      split at h
      · exact absurd h (by simp)
      · rename_i hne
        simp only [Option.some.injEq] at h
        subst h
        exact ⟨rfl, hne, fun _ => ⟨rfl, rfl⟩, fun hc => absurd hn hc⟩
  · rw [if_neg hn] at h
    cases hh : m.BlobName with
    | none => simp [hh] at h
    | some b =>
      simp only [hh] at h
      split at h
      · exact absurd h (by simp)
      · rename_i hne
        simp only [Option.some.injEq] at h
        subst h
        exact ⟨rfl, hne, fun hc => absurd hc hn, fun _ => ⟨b, rfl, rfl, rfl⟩⟩

theorem moduleMatches_blob {type id : String} (h : type ≠ "GithubReleases")
    (a : ModuleBase) : moduleMatches type id a = bMatch a id := by
  unfold moduleMatches bMatch
  rw [if_neg h]

/-- Under well-formedness, reprojecting a view record's own current value is
the identity on the manifest. -/
theorem reproject_self {cfg : ConfigurationData} (hwf : configWF cfg) :
    ∀ r ∈ projectModules cfg, reprojectEdit cfg r = cfg := by
  intro r hr
  obtain ⟨s, hs, hrs⟩ := List.mem_flatMap.mp hr
  obtain ⟨m, hm, hpm⟩ := List.mem_filterMap.mp hrs
  obtain ⟨hst, hidne, hgh, hbl⟩ := projectModule_inv hpm
  have hswf := hwf.2 s hs
  have hsrc_fix : updateSourceModules r.id r.sourceType
      (fullValueFor r.id r.sourceType r.value) s = s := by
    by_cases hn : s.Name = "GithubReleases"
    · obtain ⟨hId, hval⟩ := hgh hn
      unfold sourceWF at hswf
      rw [if_pos hn] at hswf
      obtain ⟨hall, hpair⟩ := hswf
      have hmwf := hall m hm
      unfold moduleGithubWF at hmwf
      cases hv : m.Version with
      | none => simp [hId, hv] at hmwf
      | some v =>
        simp only [hId, hv, Bool.and_eq_true, decide_eq_true_eq] at hmwf
        obtain ⟨⟨-, htrim⟩, hdel⟩ := hmwf
        have hvval : r.value = v := by rw [hval, hv]; rfl
        have hty : r.sourceType = "GithubReleases" := hst.trans hn
        have hfv : fullValueFor r.id r.sourceType r.value = v := by
          unfold fullValueFor
          rw [if_pos hty, hvval, htrim]
        rw [hfv]
        unfold updateSourceModules
        rw [if_neg hdel]
        have happ : applyEdit (moduleMatches r.sourceType r.id)
            (setModuleValue r.id r.sourceType v) (newModule r.id r.sourceType v)
            s.Modules = s.Modules := by
          have hpm' : moduleMatches r.sourceType r.id m = true := by
            unfold moduleMatches
            rw [if_pos hty]
            simp [hId]
          obtain ⟨i, hfind, hget⟩ := findIdxP_eq_mem
            (R := fun a b => a.Id ≠ b.Id)
            (p := fun m' => moduleMatches r.sourceType r.id m' = true)
            hpair hm hpm'
            (fun a hR => by
              intro hc
              have hc' : moduleMatches r.sourceType r.id a = true := hc
              unfold moduleMatches at hc'
              rw [if_pos hty] at hc'
              exact hR ((of_decide_eq_true hc').trans hId.symm))
          unfold applyEdit
          rw [hfind]
          apply updateAt_self hget
          unfold setModuleValue
          rw [if_pos hty, ← hv]
        rw [happ]
    · obtain ⟨b, hbn, hidb, hvalb⟩ := hbl hn
      unfold sourceWF at hswf
      rw [if_neg hn] at hswf
      obtain ⟨hall, hpair⟩ := hswf
      have hmwf := hall m hm
      unfold moduleBlobWF at hmwf
      simp only [hbn, Bool.and_eq_true, decide_eq_true_eq] at hmwf
      obtain ⟨⟨⟨hid0, heq⟩, htrim⟩, hpref⟩ := hmwf
      have hty : r.sourceType ≠ "GithubReleases" := by rw [hst]; exact hn
      have hfv : fullValueFor r.id r.sourceType r.value = b := by
        unfold fullValueFor
        rw [if_neg hty, hvalb, htrim, hidb, ← heq]
      have hbne : b ≠ "" := fun e => hid0 (by rw [e]; rfl)
      have hbdel : b ≠ "__DELETE__" := fun e => hid0 (by rw [e]; rfl)
      rw [hfv]
      unfold updateSourceModules
      rw [if_neg hbdel]
      have happ : applyEdit (moduleMatches r.sourceType r.id)
          (setModuleValue r.id r.sourceType b) (newModule r.id r.sourceType b)
          s.Modules = s.Modules := by
        have hpm' : moduleMatches r.sourceType r.id m = true := by
          unfold moduleMatches
          rw [if_neg hty]
          simp only [hbn]
          rw [hidb]
          exact hpref
        obtain ⟨i, hfind, hget⟩ := findIdxP_eq_mem
          (R := fun a c => bMatch a (bIdM c) = false ∧ bMatch c (bIdM a) = false)
          (p := fun m' => moduleMatches r.sourceType r.id m' = true)
          hpair hm hpm'
          (fun a hR => by
            intro hc
            have hc' : moduleMatches r.sourceType r.id a = true := hc
            rw [moduleMatches_blob hty] at hc'
            have hbm : bIdM m = r.id := by
              unfold bIdM
              rw [hbn, hidb]
            rw [← hbm] at hc'
            exact absurd hc' (by simp [hR.1]))
        unfold applyEdit
        rw [hfind]
        apply updateAt_self hget
        unfold setModuleValue
        rw [if_neg hty, if_neg hbne, ← hbn]
      rw [happ]
  unfold reprojectEdit handleModuleUpdate
  obtain ⟨j, hfind, hget⟩ := findIdxP_eq_mem
    (R := fun a c => a.Name ≠ c.Name)
    (p := fun t => t.Name = r.sourceType)
    hwf.1 hs (by rw [hst])
    (fun a hR => fun hc => hR ((show a.Name = r.sourceType from hc).trans hst))
  simp only [hfind]
  rw [updateAt_self hget hsrc_fix]

/-- C1 counterexample: a manifest holding the blob composite `"Foo"` (no `_`)
is changed by the project-then-reproject round trip — the composite becomes
`"Foo_"`. -/
theorem C1_counterexample : roundTrip cfgC1bad ≠ cfgC1bad := by decide

/-- C1 (amended): for every *well-formed* manifest (distinct source names;
feed records with non-empty identifier and trimmed non-sentinel version; blob
composites of the shape `id ++ "_" ++ suffix` with one `_` and a trimmed
suffix; no identifier matching another record), projecting every record and
reprojecting each record's own current value yields the manifest unchanged. -/
theorem C1_roundTrip_wf (cfg : ConfigurationData) (hwf : configWF cfg) :
    roundTrip cfg = cfg :=
  foldl_fixed (reproject_self hwf)

/-- Witness for the amended C1 at a concrete two-source manifest. -/
theorem C1_witness : configWF cfgC1w ∧ roundTrip cfgC1w = cfgC1w :=
  ⟨by decide, C1_roundTrip_wf cfgC1w (by decide)⟩

/-! ## Claim C7: idempotence of sorted serialization -/

theorem jsonToModule_moduleToJson (m : ModuleBase) :
    jsonToModule (moduleToJson m) = some m := by
  rcases m with ⟨_ | i, _ | v, _ | b⟩ <;> rfl

theorem mapM_jsonToModule : ∀ l : List ModuleBase,
    mapMO jsonToModule (l.map moduleToJson) = some l
  | [] => rfl
  | m :: ms => by
    simp [mapMO, jsonToModule_moduleToJson, mapM_jsonToModule ms]

theorem mapM_jStr : ∀ l : List String, mapMO jStr (l.map Json.str) = some l
  | [] => rfl
  | x :: xs => by
    simp [mapMO, jStr, mapM_jStr xs]

theorem jsonToSource_sourceToJson (s : Source) :
    jsonToSource (sourceToJson s) = some s := by
  rcases s with ⟨name, _ | c, _ | u, _ | ms, mods⟩ <;>
    simp [sourceToJson, jsonToSource, List.lookup, jStr, jStrList,
      mapM_jsonToModule, mapM_jStr]

theorem mapM_jsonToSource : ∀ l : List Source,
    mapMO jsonToSource (l.map sourceToJson) = some l
  | [] => rfl
  | s :: ss => by
    simp [mapMO, jsonToSource_sourceToJson, mapM_jsonToSource ss]

theorem jsonToConfig_configToJson (c : ConfigurationData) :
    jsonToConfig (configToJsonAst c) = some c := by
  rcases c with ⟨mv, pv, pimg, pit, pau, ms, srcs⟩
  simp [configToJsonAst, jsonToConfig, List.lookup, jStr, jStrList,
    mapM_jsonToSource, mapM_jStr]

theorem rebuildSource_idem (s : Source) :
    rebuildSource (rebuildSource s) = rebuildSource s := by
  by_cases h : s.Name = "AzureBlob"
  · have hrw : rebuildSource s =
        { Name := s.Name, Container := s.Container, ServiceUri := s.ServiceUri,
          ModuleSources := none, Modules := List.insertionSort modLe s.Modules } := by
      unfold rebuildSource
      rw [if_pos h]
    rw [hrw]
    unfold rebuildSource
    rw [if_pos h]
    rw [(List.sorted_insertionSort modLe s.Modules).insertionSort_eq]
  · have hrw : rebuildSource s =
        { Name := s.Name, Container := none, ServiceUri := none,
          ModuleSources := some (List.insertionSort strLeP (s.ModuleSources.getD [])),
          Modules := List.insertionSort modLe s.Modules } := by
      unfold rebuildSource
      rw [if_neg h]
    rw [hrw]
    unfold rebuildSource
    rw [if_neg h]
    rw [(List.sorted_insertionSort modLe s.Modules).insertionSort_eq]
    have hgetD : (some (List.insertionSort strLeP (s.ModuleSources.getD []))).getD
        ([] : List String) = List.insertionSort strLeP (s.ModuleSources.getD []) := rfl
    rw [hgetD]
    rw [(List.sorted_insertionSort strLeP (s.ModuleSources.getD [])).insertionSort_eq]

theorem sortConfig_idem (cfg : ConfigurationData) :
    sortConfig (sortConfig cfg) = sortConfig cfg := by
  have hms : List.insertionSort strLeP (List.insertionSort strLeP cfg.ModuleSources) =
      List.insertionSort strLeP cfg.ModuleSources :=
    (List.sorted_insertionSort strLeP _).insertionSort_eq
  have hsorted :
      List.Pairwise srcLe ((List.insertionSort srcLe cfg.Sources).map rebuildSource) :=
    (List.sorted_insertionSort srcLe cfg.Sources).map _ (fun a b hab => by
      show strLe (rebuildSource a).Name (rebuildSource b).Name = true
      rw [rebuildSource_name, rebuildSource_name]
      exact hab)
  have hsrcs : (List.insertionSort srcLe
        ((List.insertionSort srcLe cfg.Sources).map rebuildSource)).map rebuildSource =
      (List.insertionSort srcLe cfg.Sources).map rebuildSource := by
    rw [List.Sorted.insertionSort_eq hsorted, List.map_map]
    exact List.map_congr_left (fun a _ => rebuildSource_idem a)
  unfold sortConfig
  congr 1

theorem generateJsonAst_true (cfg : ConfigurationData) :
    generateJsonAst cfg true = configToJsonAst (sortConfig cfg) := rfl

/-- C7: serialization with sorting enabled is idempotent — serializing,
parsing back, and serializing again produces the same text. -/
theorem C7_serialize_idempotent (cfg cfg' : ConfigurationData)
    (h : jsonToConfig (generateJsonAst cfg true) = some cfg') :
    generateJson cfg' true = generateJson cfg true := by
  rw [generateJsonAst_true, jsonToConfig_configToJson] at h
  obtain rfl : sortConfig cfg = cfg' := Option.some.inj h
  unfold generateJson
  rw [generateJsonAst_true, generateJsonAst_true, sortConfig_idem]

/-- Witness for C7 at a concrete manifest. -/
theorem C7_witness :
    jsonToConfig (generateJsonAst cfgC7w true) = some (sortConfig cfgC7w) ∧
      generateJson (sortConfig cfgC7w) true = generateJson cfgC7w true :=
  ⟨by decide, C7_serialize_idempotent cfgC7w (sortConfig cfgC7w) (by decide)⟩

end VcDeploy
